import Mathlib

/-!
Verification of the data-access layer of the End-of-PCOS repository
(`src/database.py`): the `Patient` record aggregator and the `Provider`
roster manager, shallowly embedded in Lean.

Modelling conventions:
* A Python `dict` is an association list that keeps insertion order;
  assignment updates the first occurrence of a key in place or appends.
* The document store is modelled per collection: a patient's collection
  records the `find_one` result for each `entry_type` the code queries
  (`patient_details`, `lh_values`, `fsh_values`) plus the list of
  `questions` documents in cursor order; a provider's collection is the
  list of its documents in insertion order.
* Fallible Python code (KeyError, TypeError from subscripting None,
  ValueError from `float`/`strptime`/`min`, NameError from an unbound
  local) is modelled with `Except PyErr`.
* Python floats are modelled as rationals; `float` parsing is modelled
  for plain decimal notation (exponents, `inf`, `nan` and surrounding
  whitespace are not modelled).
* All claims concern the `encrypted=False` paths; the encrypted branches
  of the source are unimplemented stubs (`pass`).
-/

namespace EndOfPcos

/-- Errors the modelled code can raise, plus `notFoundError`, the typed
error of the specification's taxonomy, which the modelled code never
produces. `noneSubscript` is the `TypeError` raised by subscripting the
`None` returned by a failed `find_one`; `valueError` is raised by
`float`, `datetime.strptime` and `min` on an empty sequence;
`nameError` is raised by reading an unbound local variable. -/
inductive PyErr where
  | keyError (key : String)
  | noneSubscript
  | valueError
  | nameError
  | notFoundError
deriving DecidableEq, Repr

/-- Lift an `Option` into `Except`, raising `e` on `none`. -/
def pyOpt {α : Type} (o : Option α) (e : PyErr) : Except PyErr α :=
  match o with
  | some a => Except.ok a
  | none => Except.error e

/-- Python-dict lookup `d.get(k)` on an association list (first match). -/
def alookup {α β : Type} [DecidableEq α] : List (α × β) → α → Option β
  | [], _ => none
  | (k, v) :: rest, k' => if k' = k then some v else alookup rest k'

/-- Python-dict assignment `d[k] = v`: update the first occurrence of the
key in place, or append a new entry. -/
def ainsert {α β : Type} [DecidableEq α] : List (α × β) → α → β → List (α × β)
  | [], k, v => [(k, v)]
  | (k0, v0) :: rest, k, v =>
    if k = k0 then (k0, v) :: rest else (k0, v0) :: ainsert rest k v

/-- Python-dict removal `d.pop(k)`: `none` when the key is absent (the
caller raises `KeyError`), otherwise the list without the first
occurrence of the key. -/
def apop {α β : Type} [DecidableEq α] : List (α × β) → α → Option (List (α × β))
  | [], _ => none
  | (k0, v0) :: rest, k =>
    if k = k0 then some rest
    else (apop rest k).map (fun r => (k0, v0) :: r)

/-- Python-dict membership `k in d` / `KeyError`-raising access `d[k]`. -/
def dgetitem {α β : Type} [DecidableEq α] (m : List (α × β)) (k : α)
    (key : String) : Except PyErr β :=
  pyOpt (alookup m k) (PyErr.keyError key)

/-! ### Dates: `datetime.strptime(date, '%m-%d-%Y')` and `strftime` -/

/-- A `datetime.datetime` as the code uses it: a calendar date. -/
structure Date where
  month : Nat
  day : Nat
  year : Nat
deriving DecidableEq, Repr

/-- The total order used by `datetime` comparison and `sorted`,
encoded numerically; it agrees with lexicographic (year, month, day)
comparison whenever month and day are below 100, which every parsed
date satisfies. -/
def dateNum (d : Date) : Nat :=
  d.year * 10000 + d.month * 100 + d.day

/-- Split a character list on a separator, like `str.split(sep)`. -/
def splitOnChar (sep : Char) : List Char → List (List Char)
  | [] => [[]]
  | c :: cs =>
    if c = sep then [] :: splitOnChar sep cs
    else
      match splitOnChar sep cs with
      | t :: ts => (c :: t) :: ts
      | [] => [[c]]

/-- Numeric value of a digit string, most significant digit first. -/
def digitsToNat (l : List Char) : Nat :=
  l.foldl (fun a c => a * 10 + (c.toNat - 48)) 0

/-- Days in a month, as `datetime` validates them (Gregorian, proleptic). -/
def daysInMonth (y m : Nat) : Nat :=
  if m = 2 then (if (y % 4 = 0 ∧ y % 100 ≠ 0) ∨ y % 400 = 0 then 29 else 28)
  else if m = 4 ∨ m = 6 ∨ m = 9 ∨ m = 11 then 30 else 31

/-- The dates `datetime` can represent: month 1–12, day within the month,
year 1–9999. -/
def dateValid (d : Date) : Prop :=
  1 ≤ d.month ∧ d.month ≤ 12 ∧ 1 ≤ d.day ∧ d.day ≤ daysInMonth d.year d.month ∧
    1 ≤ d.year ∧ d.year ≤ 9999

instance (d : Date) : Decidable (dateValid d) := by
  unfold dateValid; infer_instance

/-- `datetime.strptime(s, '%m-%d-%Y')` on a character list: one or two
digits for `%m` and `%d`, exactly four digits for `%Y`, separated by
dashes, then range-validated by the `datetime` constructor. -/
def parseDateChars (l : List Char) : Option Date :=
  match splitOnChar '-' l with
  | [ms, ds, ys] =>
    if (ms.length = 1 ∨ ms.length = 2) ∧ ms.all Char.isDigit ∧
        (ds.length = 1 ∨ ds.length = 2) ∧ ds.all Char.isDigit ∧
        ys.length = 4 ∧ ys.all Char.isDigit then
      if dateValid ⟨digitsToNat ms, digitsToNat ds, digitsToNat ys⟩ then
        some ⟨digitsToNat ms, digitsToNat ds, digitsToNat ys⟩
      else none
    else none
  | _ => none

/-- `datetime.strptime(s, '%m-%d-%Y')`: `none` models the `ValueError`. -/
def parseDate (s : String) : Option Date :=
  parseDateChars s.data

/-- The character for digit `n` (`n < 10`). -/
def digitChar (n : Nat) : Char :=
  Char.ofNat (48 + n)

/-- Two-digit zero-padded decimal rendering (`%m`, `%d`). -/
def pad2 (n : Nat) : List Char :=
  [digitChar (n / 10 % 10), digitChar (n % 10)]

/-- Four-digit zero-padded decimal rendering (`%Y`). -/
def pad4 (n : Nat) : List Char :=
  [digitChar (n / 1000 % 10), digitChar (n / 100 % 10),
   digitChar (n / 10 % 10), digitChar (n % 10)]

/-- `date.strftime('%m-%d-%Y')` on character lists. -/
def formatDateChars (d : Date) : List Char :=
  pad2 d.month ++ ('-' :: (pad2 d.day ++ ('-' :: pad4 d.year)))

/-- `date.strftime('%m-%d-%Y')`. -/
def formatDate (d : Date) : String :=
  ⟨formatDateChars d⟩

/-! ### Python `float` parsing, modelled over the rationals -/

/-- Value of a decimal fraction part: `digitsToNat l / 10 ^ l.length`. -/
def fracVal (l : List Char) : ℚ :=
  (digitsToNat l : ℚ) / 10 ^ l.length

/-- `float(s)` on plain decimal notation: optional sign, an integer
part and/or a fractional part with at least one digit overall.
Exponents, `inf`, `nan` and surrounding whitespace are not modelled. -/
def parseFloatChars (l : List Char) : Option ℚ :=
  let core : List Char → Option ℚ := fun l =>
    match splitOnChar '.' l with
    | [ip] =>
      if ip ≠ [] ∧ ip.all Char.isDigit then some (digitsToNat ip : ℚ) else none
    | [ip, fp] =>
      if (ip ≠ [] ∨ fp ≠ []) ∧ ip.all Char.isDigit ∧ fp.all Char.isDigit then
        some ((digitsToNat ip : ℚ) + fracVal fp)
      else none
    | _ => none
  match l with
  | '-' :: rest => (core rest).map (fun q => -q)
  | '+' :: rest => core rest
  | _ => core l

/-- `float(s)`: `none` models the `ValueError`. -/
def parseFloat (s : String) : Option ℚ :=
  parseFloatChars s.data

/-! ### The Patients namespace and the `Patient` aggregator -/

/-- A survey document's `questions` mapping (question text → answer). -/
abbrev QMap := List (String × String)

/-- One patient's document collection, as the fields the data layer
reads from it: the `find_one` result for each queried `entry_type`
(`none` when no such document exists), with the mapping each carries
under its payload key, and the `find` cursor for `entry_type:
questions` as `(date, questions)` pairs in iteration order. -/
structure PatientCollection where
  patient_details : Option (List (String × String))
  lh_doc : Option (List (String × String))
  fsh_doc : Option (List (String × String))
  question_docs : List (String × QMap)
deriving DecidableEq, Repr

/-- A collection no document was ever written to. -/
def emptyPatientCollection : PatientCollection :=
  ⟨none, none, none, []⟩

/-- The `Patients` database: collection name → collection contents.
Reading an absent collection behaves like an empty collection. -/
structure PatientsNS where
  collections : List (String × PatientCollection)
deriving DecidableEq, Repr

/-- `client['Patients'].list_collection_names()`. -/
def list_collection_names (ns : PatientsNS) : List String :=
  ns.collections.map Prod.fst

/-- `client['Patients'][patient_id]`: an absent collection reads as
empty (`find_one` returns `None`, `find` returns no documents). -/
def patientColl (ns : PatientsNS) (patient_id : String) : PatientCollection :=
  (alookup ns.collections patient_id).getD emptyPatientCollection

/-- `Patient.verify_patient_credentials(patient_id, patient_key,
encrypted)`: when not encrypted, `True` iff `patient_id` names a
collection in the `Patients` namespace — the key is never read; the
encrypted branch is an unimplemented stub that falls through to
`None`. -/
def verify_patient_credentials (ns : PatientsNS) (patient_id : String)
    (patient_key : String) (encrypted : Bool := false) : Option Bool :=
  if !encrypted then
    if (list_collection_names ns).contains patient_id then some true
    else some false
  else none

/-- `Patient._get_lh_data` (unencrypted):
`find_one({'entry_type': 'lh_values'})['lh_values']`; a missing
document makes the subscript raise `TypeError`. -/
def get_lh_data (c : PatientCollection) : Except PyErr (List (String × String)) :=
  pyOpt c.lh_doc PyErr.noneSubscript

/-- `Patient._get_fsh_data` (unencrypted):
`find_one({'entry_type': 'fsh_values'})['fsh_values']`; a missing
document makes the subscript raise `TypeError`. -/
def get_fsh_data (c : PatientCollection) : Except PyErr (List (String × String)) :=
  pyOpt c.fsh_doc PyErr.noneSubscript

/-- A value of the heterogeneous lists `get_range` returns: either the
string `'n/a'` or a number. -/
inductive RangeVal where
  | na
  | num (q : ℚ)
deriving DecidableEq, Repr

/-- `Patient.get_range(metric)`: `_get_lh_data()` when the metric is
`'lh'`, else `_get_fsh_data()`; `['n/a', 'n/a']` on an empty (falsy)
mapping; otherwise `[min, max]` of the `float`-parsed values (`min` of
an empty sequence raises `ValueError`, unreachable here). -/
def get_range (c : PatientCollection) (metric : String) :
    Except PyErr (List RangeVal) := do
  let data ← if metric = "lh" then get_lh_data c else get_fsh_data c
  if data.isEmpty then
    return [RangeVal.na, RangeVal.na]
  else
    let vals ← (data.map Prod.snd).mapM (fun s => pyOpt (parseFloat s) PyErr.valueError)
    match vals with
    | [] => Except.error PyErr.valueError
    | v :: vs => return [RangeVal.num (vs.foldl min v), RangeVal.num (vs.foldl max v)]

/-- The series `Patient.get_chart(metric)` plots (the bokeh rendering
consumes exactly these pairs): dates `strptime`-parsed from the
mapping's keys in order, zipped with the `float`-parsed values. A
metric other than `'lh'` and `'fsh'` leaves the local `data` unbound
(`NameError`). -/
def get_chart_points (c : PatientCollection) (metric : String) :
    Except PyErr (List (Date × ℚ)) := do
  let data ←
    if metric = "lh" then get_lh_data c
    else if metric = "fsh" then get_fsh_data c
    else Except.error PyErr.nameError
  let dates ← (data.map Prod.fst).mapM (fun s => pyOpt (parseDate s) PyErr.valueError)
  let vals ← (data.map Prod.snd).mapM (fun s => pyOpt (parseFloat s) PyErr.valueError)
  return dates.zip vals

/-- `Patient.get_first_name` (unencrypted):
`self.patient_details['first_name']`, where `patient_details` is the
`find_one({'entry_type': 'patient_details'})` result stored by
`__init__` — subscripting `None` raises `TypeError`. -/
def get_first_name (c : PatientCollection) : Except PyErr String := do
  let details ← pyOpt c.patient_details PyErr.noneSubscript
  dgetitem details "first_name" "first_name"

/-- `Patient.get_last_name` (unencrypted). -/
def get_last_name (c : PatientCollection) : Except PyErr String := do
  let details ← pyOpt c.patient_details PyErr.noneSubscript
  dgetitem details "last_name" "last_name"

/-- The loop of `Patient._get_all_questions`: build the dict keyed by
parsed date, `questions[strptime(date)] = entry['questions']`; a
malformed date raises `ValueError`. -/
def questionsFold : List (String × QMap) → List (Date × QMap) →
    Except PyErr (List (Date × QMap))
  | [], acc => Except.ok acc
  | (ds, qs) :: rest, acc =>
    match parseDate ds with
    | none => Except.error PyErr.valueError
    | some d => questionsFold rest (ainsert acc d qs)

/-- The key order of `sorted(questions.items(), reverse=True)`:
descending by date (keys are distinct, so the tuple comparison never
reaches the dict values). -/
def descRel (a b : Date × QMap) : Prop :=
  dateNum b.1 ≤ dateNum a.1

instance : DecidableRel descRel := fun a b =>
  inferInstanceAs (Decidable (dateNum b.1 ≤ dateNum a.1))

instance : IsTotal (Date × QMap) descRel :=
  ⟨fun a b => (Nat.le_total (dateNum b.1) (dateNum a.1)).imp id id⟩

instance : IsTrans (Date × QMap) descRel :=
  ⟨fun _ _ _ h1 h2 => Nat.le_trans h2 h1⟩

/-- `Patient._get_all_questions` (unencrypted): collect the `questions`
documents into a dict keyed by parsed date (later documents overwrite
earlier ones with the same date), then
`dict(sorted(questions.items(), reverse=True))`. -/
def get_all_questions (c : PatientCollection) :
    Except PyErr (List (Date × QMap)) := do
  let qs ← questionsFold c.question_docs []
  return List.insertionSort descRel qs

/-- One row of `Patient.get_surveys_overview`. -/
structure SurveyRecord where
  date : String
  period : String
  flow_rate : String
  hair_changes : String
  pain_level : String
deriving DecidableEq, Repr

/-- The loop body of `Patient.get_surveys_overview`: build one
normalized record from a survey's `(parsed date, questions)` pair;
a missing question key raises `KeyError`. -/
def mkSurveyRecord (d : Date) (qs : QMap) : Except PyErr SurveyRecord := do
  let period ← dgetitem qs "On period?" "On period?"
  let flow ←
    if period = "Yes" then dgetitem qs "Flow rate?" "Flow rate?"
    else pure "n/a"
  let hair ← dgetitem qs "Changes in hair?" "Changes in hair?"
  let pain ← dgetitem qs "Pain level?" "Pain level?"
  return ⟨formatDate d, period, flow, hair, pain⟩

/-- `Patient.get_surveys_overview` (unencrypted). -/
def get_surveys_overview (c : PatientCollection) :
    Except PyErr (List SurveyRecord) := do
  let surveys ← get_all_questions c
  surveys.mapM (fun p => mkSurveyRecord p.1 p.2)

/-! ### The Providers namespace and the `Provider` roster manager -/

/-- A document of a provider's collection: the code only ever stores
documents carrying a `document_type` tag and a `patient_list` mapping
(patient identifier → access key). -/
structure PLDoc where
  document_type : String
  patient_list : List (String × String)
deriving DecidableEq, Repr

/-- A provider's collection: its documents in insertion order. -/
abbrev ProvColl := List PLDoc

/-- `find_one({'document_type': 'patient_list'})`: first match. -/
def find_pl (coll : ProvColl) : Option PLDoc :=
  coll.find? (fun d => d.document_type = "patient_list")

/-- `Provider.get_patient_list`:
`find_one({'document_type': 'patient_list'})['patient_list']`;
subscripting a `None` result raises `TypeError`. -/
def get_patient_list (coll : ProvColl) : Except PyErr (List (String × String)) :=
  (pyOpt (find_pl coll) PyErr.noneSubscript).map PLDoc.patient_list

/-- `replace_one({'document_type': 'patient_list'}, newDoc)`: replace
the first matching document; no match leaves the collection unchanged
(`matched_count == 0`). -/
def replace_pl (coll : ProvColl) (newDoc : PLDoc) : ProvColl :=
  match coll with
  | [] => []
  | d :: ds =>
    if d.document_type = "patient_list" then newDoc :: ds
    else d :: replace_pl ds newDoc

/-- `Provider.add_patient(patient_id, patient_key)`: read the roster
mapping, assign `patient_list[patient_id] = patient_key`, write the
whole document back. -/
def add_patient (coll : ProvColl) (patient_id patient_key : String) :
    Except PyErr ProvColl := do
  let pl ← get_patient_list coll
  return replace_pl coll ⟨"patient_list", ainsert pl patient_id patient_key⟩

/-- `Provider.drop_patient(patient_id)`: read the roster mapping,
`patient_list.pop(patient_id)` — raising `KeyError` when the entry is
absent — and write the whole document back. -/
def drop_patient (coll : ProvColl) (patient_id : String) :
    Except PyErr ProvColl := do
  let pl ← get_patient_list coll
  match apop pl patient_id with
  | none => Except.error (PyErr.keyError patient_id)
  | some pl' => return replace_pl coll ⟨"patient_list", pl'⟩

/-- One row of `Provider.patients_overview`. -/
structure OverviewRec where
  patient_id : String
  first_name : String
  last_name : String
deriving DecidableEq, Repr

/-- The loop body of `Provider.patients_overview`: construct a
`Patient` for one roster entry and read both names. -/
def overview_row (pats : PatientsNS) (pk : String × String) :
    Except PyErr OverviewRec := do
  let c := patientColl pats pk.1
  let fn ← get_first_name c
  let ln ← get_last_name c
  return OverviewRec.mk pk.1 fn ln

/-- `Provider.patients_overview` (unencrypted): for each roster entry in
order, construct a `Patient` and read both names; the empty-roster
branch returns the empty list, which the fold gives for free. -/
def patients_overview (pats : PatientsNS) (coll : ProvColl) :
    Except PyErr (List OverviewRec) := do
  let pl ← get_patient_list coll
  pl.mapM (overview_row pats)

/-- The `Providers` database: collection name → collection contents. -/
structure ProvidersNS where
  collections : List (String × ProvColl)
deriving DecidableEq, Repr

/-- `client['Providers'][user_id]`: an absent collection reads as empty. -/
def provColl (ns : ProvidersNS) (user_id : String) : ProvColl :=
  (alookup ns.collections user_id).getD []

/-- `insert_one`: append the document, implicitly creating the
collection when it does not exist. -/
def ns_insert_one (ns : ProvidersNS) (user_id : String) (d : PLDoc) : ProvidersNS :=
  match alookup ns.collections user_id with
  | some coll => ⟨ainsert ns.collections user_id (coll ++ [d])⟩
  | none => ⟨ns.collections ++ [(user_id, [d])]⟩

/-- `create_collection(user_id)`: register an empty collection (the
code only calls it when the name is absent). -/
def ns_create_collection (ns : ProvidersNS) (user_id : String) : ProvidersNS :=
  match alookup ns.collections user_id with
  | some _ => ns
  | none => ⟨ns.collections ++ [(user_id, [])]⟩

/-- The seed roster document `{'document_type': 'patient_list',
'patient_list': {}}`. -/
def seedDoc : PLDoc :=
  ⟨"patient_list", []⟩

/-- `client['Providers'].list_collection_names()`. -/
def list_collection_names_prov (ns : ProvidersNS) : List String :=
  ns.collections.map Prod.fst

/-- `Provider.__init__(user_id)`: list the collection names and probe
for the roster document first, then (1) if the collection name is
absent, create the collection and insert a seed document, and (2) if
the probe — taken before step (1) — found no roster document, insert a
seed document. -/
def provider_init (ns : ProvidersNS) (user_id : String) : ProvidersNS :=
  let collections_list := list_collection_names_prov ns
  let patient_list_exists := (find_pl (provColl ns user_id)).isSome
  let ns1 :=
    if user_id ∈ collections_list then ns
    else ns_insert_one (ns_create_collection ns user_id) user_id seedDoc
  if patient_list_exists then ns1 else ns_insert_one ns1 user_id seedDoc

/-- The number of roster documents in a provider's collection. -/
def countPL (coll : ProvColl) : Nat :=
  (coll.filter (fun d => d.document_type = "patient_list")).length

/-- The `questions` mapping of the last document (in cursor order) whose
date parses to `d` — the entry the duplicate-tolerant aggregation keeps:
a match later in the list takes precedence over an earlier one. -/
def lastSeenFor (docs : List (String × QMap)) (d : Date) : Option QMap :=
  match docs with
  | [] => none
  | (ds, qm) :: rest =>
    match lastSeenFor rest d with
    | some v => some v
    | none => if parseDate ds = some d then some qm else none

/-- Descending calendar order on the textual dates of two overview
records: both dates parse and the first is the more recent. -/
def recDateDesc (r1 r2 : SurveyRecord) : Prop :=
  ∃ d1 d2, parseDate r1.date = some d1 ∧ parseDate r2.date = some d2 ∧
    dateNum d2 ≤ dateNum d1

/-! ### Association-list lemmas -/

theorem alookup_ainsert {α β : Type} [DecidableEq α] (l : List (α × β)) (k k' : α) (v : β) :
    alookup (ainsert l k v) k' = if k' = k then some v else alookup l k' := by
  induction l with
  | nil => simp [ainsert, alookup]
  | cons hd tl ih =>
    obtain ⟨k0, v0⟩ := hd
    by_cases hk : k = k0
    · subst hk
      by_cases hk' : k' = k <;> simp [ainsert, alookup, hk']
    · by_cases hk' : k' = k0
      · subst hk'
        have : ¬ k' = k := fun h => hk h.symm
        simp [ainsert, alookup, hk, this]
      · simp [ainsert, alookup, hk, hk', ih]

theorem mem_keys_ainsert {α β : Type} [DecidableEq α] (l : List (α × β)) (k k' : α) (v : β) :
    k' ∈ (ainsert l k v).map Prod.fst ↔ k' = k ∨ k' ∈ l.map Prod.fst := by
  induction l with
  | nil => simp [ainsert]
  | cons hd tl ih =>
    obtain ⟨k0, v0⟩ := hd
    by_cases hk : k = k0
    · subst hk
      simp [ainsert]
    · simp [ainsert, hk, ih]
      tauto

theorem keys_nodup_ainsert {α β : Type} [DecidableEq α] (l : List (α × β)) (k : α) (v : β)
    (h : (l.map Prod.fst).Nodup) : ((ainsert l k v).map Prod.fst).Nodup := by
  induction l with
  | nil => simp [ainsert]
  | cons hd tl ih =>
    obtain ⟨k0, v0⟩ := hd
    simp only [List.map_cons, List.nodup_cons] at h
    by_cases hk : k = k0
    · subst hk
      simpa [ainsert] using h
    · simp only [ainsert, if_neg hk, List.map_cons, List.nodup_cons]
      refine ⟨fun hmem => ?_, ih h.2⟩
      rcases (mem_keys_ainsert tl k k0 v).1 hmem with h1 | h1
      · exact hk h1.symm
      · exact h.1 h1

theorem alookup_eq_some_of_mem {α β : Type} [DecidableEq α] (l : List (α × β)) (k : α) (v : β)
    (hnd : (l.map Prod.fst).Nodup) (hmem : (k, v) ∈ l) : alookup l k = some v := by
  induction l with
  | nil => simp at hmem
  | cons hd tl ih =>
    obtain ⟨k0, v0⟩ := hd
    simp only [List.map_cons, List.nodup_cons] at hnd
    rcases List.mem_cons.1 hmem with h1 | h1
    · obtain ⟨h2, h3⟩ := Prod.mk.injEq .. ▸ h1
      subst h2; subst h3
      simp [alookup]
    · have hne : k ≠ k0 := by
        rintro rfl
        exact hnd.1 (List.mem_map.2 ⟨(k, v), h1, rfl⟩)
      simp [alookup, hne, ih hnd.2 h1]

theorem mem_of_alookup_eq_some {α β : Type} [DecidableEq α] (l : List (α × β)) (k : α) (v : β)
    (h : alookup l k = some v) : (k, v) ∈ l := by
  induction l with
  | nil => simp [alookup] at h
  | cons hd tl ih =>
    obtain ⟨k0, v0⟩ := hd
    by_cases hk : k = k0
    · subst hk
      simp [alookup] at h
      simp [h]
    · simp [alookup, hk] at h
      exact List.mem_cons_of_mem _ (ih h)

theorem apop_eq_none_iff {α β : Type} [DecidableEq α] (l : List (α × β)) (k : α) :
    apop l k = none ↔ alookup l k = none := by
  induction l with
  | nil => simp [apop, alookup]
  | cons hd tl ih =>
    obtain ⟨k0, v0⟩ := hd
    by_cases hk : k = k0
    · simp [apop, alookup, hk]
    · simp [apop, alookup, hk, Option.map_eq_none', ih]

theorem alookup_apop_ne {α β : Type} [DecidableEq α] (l l' : List (α × β)) (k k' : α)
    (h : apop l k = some l') (hne : k' ≠ k) : alookup l' k' = alookup l k' := by
  induction l generalizing l' with
  | nil => simp [apop] at h
  | cons hd tl ih =>
    obtain ⟨k0, v0⟩ := hd
    by_cases hk : k = k0
    · subst hk
      simp only [apop] at h
      simp only [if_true, Option.some.injEq] at h
      subst h
      simp [alookup, hne]
    · simp only [apop, if_neg hk] at h
      rcases Option.map_eq_some'.1 h with ⟨r, hr, hl'⟩
      subst hl'
      by_cases hk' : k' = k0
      · simp [alookup, hk']
      · simp [alookup, hk', ih r hr]

theorem alookup_apop_self {α β : Type} [DecidableEq α] (l l' : List (α × β)) (k : α)
    (hnd : (l.map Prod.fst).Nodup) (h : apop l k = some l') : alookup l' k = none := by
  induction l generalizing l' with
  | nil => simp [apop] at h
  | cons hd tl ih =>
    obtain ⟨k0, v0⟩ := hd
    simp only [List.map_cons, List.nodup_cons] at hnd
    by_cases hk : k = k0
    · subst hk
      simp only [apop] at h
      simp only [if_true, Option.some.injEq] at h
      subst h
      rcases h1 : alookup tl k with _ | v
      · rfl
      · exact absurd (List.mem_map.2 ⟨(k, v), mem_of_alookup_eq_some tl k v h1, rfl⟩) hnd.1
    · simp only [apop, if_neg hk] at h
      rcases Option.map_eq_some'.1 h with ⟨r, hr, hl'⟩
      subst hl'
      simp only [alookup, if_neg hk]
      exact ih r hnd.2 hr

/-! ### `min`/`max` over a nonempty sequence, as Python computes them -/

theorem foldl_min_mem : ∀ (vs : List ℚ) (v : ℚ), vs.foldl min v ∈ v :: vs := by
  intro vs
  induction vs with
  | nil => intro v; simp
  | cons x xs ih =>
    intro v
    simp only [List.foldl_cons]
    rcases List.mem_cons.1 (ih (min v x)) with h1 | h1
    · rw [h1]
      rcases min_choice v x with h | h <;> rw [h]
      · exact List.mem_cons_self _ _
      · exact List.mem_cons_of_mem _ (List.mem_cons_self _ _)
    · exact List.mem_cons_of_mem _ (List.mem_cons_of_mem _ h1)

theorem foldl_min_le : ∀ (vs : List ℚ) (v : ℚ), ∀ x ∈ v :: vs, vs.foldl min v ≤ x := by
  intro vs
  induction vs with
  | nil => intro v x hx; simp at hx; simp [hx]
  | cons y ys ih =>
    intro v x hx
    simp only [List.foldl_cons]
    rcases List.mem_cons.1 hx with h | h
    · rw [h]
      exact le_trans (ih (min v y) _ (List.mem_cons_self _ _)) (min_le_left v y)
    · rcases List.mem_cons.1 h with h1 | h1
      · rw [h1]
        exact le_trans (ih (min v y) _ (List.mem_cons_self _ _)) (min_le_right v y)
      · exact ih (min v y) x (List.mem_cons_of_mem _ h1)

theorem foldl_max_mem : ∀ (vs : List ℚ) (v : ℚ), vs.foldl max v ∈ v :: vs := by
  intro vs
  induction vs with
  | nil => intro v; simp
  | cons x xs ih =>
    intro v
    simp only [List.foldl_cons]
    rcases List.mem_cons.1 (ih (max v x)) with h1 | h1
    · rw [h1]
      rcases max_choice v x with h | h <;> rw [h]
      · exact List.mem_cons_self _ _
      · exact List.mem_cons_of_mem _ (List.mem_cons_self _ _)
    · exact List.mem_cons_of_mem _ (List.mem_cons_of_mem _ h1)

theorem foldl_le_max : ∀ (vs : List ℚ) (v : ℚ), ∀ x ∈ v :: vs, x ≤ vs.foldl max v := by
  intro vs
  induction vs with
  | nil => intro v x hx; simp at hx; simp [hx]
  | cons y ys ih =>
    intro v x hx
    simp only [List.foldl_cons]
    rcases List.mem_cons.1 hx with h | h
    · rw [h]
      exact le_trans (le_max_left v y) (ih (max v y) _ (List.mem_cons_self _ _))
    · rcases List.mem_cons.1 h with h1 | h1
      · rw [h1]
        exact le_trans (le_max_right v y) (ih (max v y) _ (List.mem_cons_self _ _))
      · exact ih (max v y) x (List.mem_cons_of_mem _ h1)

/-! ### `mapM` lemmas for the `Option` and `Except` monads -/

theorem mapM_pyOpt_ok {α β : Type} (f : α → Option β) (e : PyErr) :
    ∀ (l : List α) (out : List β), l.mapM f = some out →
      l.mapM (fun s => pyOpt (f s) e) = Except.ok out := by
  intro l
  induction l with
  | nil =>
    intro out h
    simp only [List.mapM_nil, Option.pure_def, Option.some.injEq] at h
    subst h
    rfl
  | cons a l ih =>
    intro out h
    rw [List.mapM_cons] at h
    rcases ha : f a with _ | b
    · rw [ha] at h
      simp at h
    · rcases hl : l.mapM f with _ | rest
      · rw [ha, hl] at h
        simp at h
      · rw [ha, hl] at h
        simp at h
        subst h
        rw [List.mapM_cons, ha, ih rest hl]
        rfl

theorem mapM_some_length {α β : Type} (f : α → Option β) :
    ∀ (l : List α) (out : List β), l.mapM f = some out → out.length = l.length := by
  intro l
  induction l with
  | nil =>
    intro out h
    simp only [List.mapM_nil, Option.pure_def, Option.some.injEq] at h
    subst h
    rfl
  | cons a l ih =>
    intro out h
    rw [List.mapM_cons] at h
    rcases ha : f a with _ | b
    · rw [ha] at h
      simp at h
    · rcases hl : l.mapM f with _ | rest
      · rw [ha, hl] at h
        simp at h
      · rw [ha, hl] at h
        simp at h
        subst h
        simp [ih rest hl]

theorem mapM_ok_forall₂ {α β : Type} (f : α → Except PyErr β) :
    ∀ (l : List α) (out : List β), l.mapM f = Except.ok out →
      List.Forall₂ (fun a b => f a = Except.ok b) l out := by
  intro l
  induction l with
  | nil =>
    intro out h
    simp only [List.mapM_nil] at h
    cases h
    exact List.Forall₂.nil
  | cons a l ih =>
    intro out h
    rcases ha : f a with err | b
    · rw [List.mapM_cons, ha] at h
      simp only [Bind.bind, Except.bind] at h
      cases h
    · rcases hl : l.mapM f with err | rest
      · rw [List.mapM_cons, ha, hl] at h
        simp only [Bind.bind, Except.bind] at h
        cases h
      · rw [List.mapM_cons, ha, hl] at h
        simp only [Bind.bind, Except.bind, pure, Except.pure, Except.ok.injEq] at h
        subst h
        exact List.Forall₂.cons ha (ih rest hl)

theorem forall₂_mem_right {α β : Type} {R : α → β → Prop} :
    ∀ {l : List α} {out : List β}, List.Forall₂ R l out →
      ∀ y ∈ out, ∃ x ∈ l, R x y := by
  intro l out h
  induction h with
  | nil => simp
  | cons hr _ ih =>
    intro y hy
    rcases List.mem_cons.1 hy with h1 | h1
    · exact ⟨_, List.mem_cons_self _ _, h1 ▸ hr⟩
    · rcases ih y h1 with ⟨x, hx, hxy⟩
      exact ⟨x, List.mem_cons_of_mem _ hx, hxy⟩

theorem pairwise_of_forall₂ {α β : Type} {R : α → β → Prop} {P : α → α → Prop}
    {Q : β → β → Prop}
    (him : ∀ a a' b b', R a b → R a' b' → P a a' → Q b b') :
    ∀ {l : List α} {out : List β}, List.Forall₂ R l out →
      List.Pairwise P l → List.Pairwise Q out := by
  intro l out h
  induction h with
  | nil => intro _; exact List.Pairwise.nil
  | cons hr hrest ih =>
    intro hp
    rcases List.pairwise_cons.1 hp with ⟨hhead, htail⟩
    refine List.pairwise_cons.2 ⟨fun y hy => ?_, ih htail⟩
    rcases forall₂_mem_right hrest y hy with ⟨x, hx, hxy⟩
    exact him _ _ _ _ hr hxy (hhead x hx)

/-! ### Digit and date-format lemmas -/

theorem digitChar_isDigit (n : Nat) (h : n < 10) : (digitChar n).isDigit = true := by
  interval_cases n <;> decide

theorem digitChar_ne_dash (n : Nat) (h : n < 10) : ¬ digitChar n = '-' := by
  interval_cases n <;> decide

theorem digitChar_toNat (n : Nat) (h : n < 10) : (digitChar n).toNat = 48 + n := by
  interval_cases n <;> decide

theorem splitOnChar_not_mem (sep : Char) (l : List Char) (h : sep ∉ l) :
    splitOnChar sep l = [l] := by
  induction l with
  | nil => rfl
  | cons c cs ih =>
    have hc : ¬ c = sep := fun e => h (e ▸ List.mem_cons_self c cs)
    have hcs : sep ∉ cs := fun e => h (List.mem_cons_of_mem _ e)
    simp only [splitOnChar, if_neg hc, ih hcs]

theorem splitOnChar_append (sep : Char) (a b : List Char) (h : sep ∉ a) :
    splitOnChar sep (a ++ sep :: b) = a :: splitOnChar sep b := by
  induction a with
  | nil => simp [splitOnChar]
  | cons c cs ih =>
    have hc : ¬ c = sep := fun e => h (e ▸ List.mem_cons_self c cs)
    have hcs : sep ∉ cs := fun e => h (List.mem_cons_of_mem _ e)
    simp only [List.cons_append, splitOnChar, if_neg hc]
    rw [show cs.append (sep :: b) = cs ++ sep :: b from rfl, ih hcs]

theorem dash_not_mem_pad2 (n : Nat) : '-' ∉ pad2 n := by
  intro hx
  rcases List.mem_cons.1 hx with e | hx
  · exact digitChar_ne_dash _ (Nat.mod_lt _ (by norm_num)) e.symm
  · rcases List.mem_cons.1 hx with e | hx
    · exact digitChar_ne_dash _ (Nat.mod_lt _ (by norm_num)) e.symm
    · simp at hx

theorem dash_not_mem_pad4 (n : Nat) : '-' ∉ pad4 n := by
  intro hx
  rcases List.mem_cons.1 hx with e | hx
  · exact digitChar_ne_dash _ (Nat.mod_lt _ (by norm_num)) e.symm
  · rcases List.mem_cons.1 hx with e | hx
    · exact digitChar_ne_dash _ (Nat.mod_lt _ (by norm_num)) e.symm
    · rcases List.mem_cons.1 hx with e | hx
      · exact digitChar_ne_dash _ (Nat.mod_lt _ (by norm_num)) e.symm
      · rcases List.mem_cons.1 hx with e | hx
        · exact digitChar_ne_dash _ (Nat.mod_lt _ (by norm_num)) e.symm
        · simp at hx

theorem digitsToNat_pad2 (n : Nat) (h : n < 100) : digitsToNat (pad2 n) = n := by
  unfold digitsToNat pad2
  simp only [List.foldl_cons, List.foldl_nil]
  rw [digitChar_toNat _ (Nat.mod_lt _ (by norm_num)),
    digitChar_toNat _ (Nat.mod_lt _ (by norm_num))]
  omega

theorem digitsToNat_pad4 (n : Nat) (h : n < 10000) : digitsToNat (pad4 n) = n := by
  unfold digitsToNat pad4
  simp only [List.foldl_cons, List.foldl_nil]
  rw [digitChar_toNat _ (Nat.mod_lt _ (by norm_num)),
    digitChar_toNat _ (Nat.mod_lt _ (by norm_num)),
    digitChar_toNat _ (Nat.mod_lt _ (by norm_num)),
    digitChar_toNat _ (Nat.mod_lt _ (by norm_num))]
  omega

theorem pad2_all_digit (n : Nat) : (pad2 n).all Char.isDigit = true := by
  simp only [pad2, List.all_cons, List.all_nil, Bool.and_true,
    digitChar_isDigit _ (Nat.mod_lt _ (by norm_num)), Bool.true_and]

theorem pad4_all_digit (n : Nat) : (pad4 n).all Char.isDigit = true := by
  simp only [pad4, List.all_cons, List.all_nil, Bool.and_true,
    digitChar_isDigit _ (Nat.mod_lt _ (by norm_num)), Bool.true_and]

theorem daysInMonth_le (y m : Nat) : daysInMonth y m ≤ 31 := by
  unfold daysInMonth
  split
  · split <;> norm_num
  · split <;> norm_num

theorem parseDate_formatDate (d : Date) (h : dateValid d) :
    parseDate (formatDate d) = some d := by
  obtain ⟨h1, h2, h3, h4, h5, h6⟩ := h
  have hm : d.month < 100 := by omega
  have hd : d.day < 100 := by
    have := daysInMonth_le d.year d.month
    omega
  have hy : d.year < 10000 := by omega
  show parseDateChars (formatDateChars d) = some d
  unfold formatDateChars parseDateChars
  rw [splitOnChar_append _ _ _ (dash_not_mem_pad2 _),
    splitOnChar_append _ _ _ (dash_not_mem_pad2 _),
    splitOnChar_not_mem _ _ (dash_not_mem_pad4 _)]
  simp only [pad2_all_digit, pad4_all_digit]
  rw [if_pos (by exact ⟨Or.inr rfl, trivial, Or.inr rfl, trivial, rfl, trivial⟩)]
  rw [digitsToNat_pad2 _ hm, digitsToNat_pad2 _ hd, digitsToNat_pad4 _ hy]
  rw [if_pos ⟨h1, h2, h3, h4, h5, h6⟩]

theorem parseDateChars_valid {l : List Char} {d : Date}
    (h : parseDateChars l = some d) : dateValid d := by
  unfold parseDateChars at h
  split at h
  · split at h
    · split at h
      · cases h; assumption
      · cases h
    · cases h
  · cases h

theorem parseDate_valid {s : String} {d : Date} (h : parseDate s = some d) :
    dateValid d :=
  parseDateChars_valid h

/-! ### The survey aggregation: `questionsFold` and `get_all_questions` -/

theorem mem_ainsert {α β : Type} [DecidableEq α] (l : List (α × β)) (k : α) (v : β) :
    ∀ p ∈ ainsert l k v, p ∈ l ∨ p.1 = k := by
  induction l with
  | nil =>
    intro p hp
    simp [ainsert] at hp
    simp [hp]
  | cons hd tl ih =>
    intro p hp
    obtain ⟨k0, v0⟩ := hd
    by_cases hk : k = k0
    · subst hk
      simp only [ainsert, if_pos rfl] at hp
      rcases List.mem_cons.1 hp with h | h
      · right; rw [h]
      · left; exact List.mem_cons_of_mem _ h
    · simp only [ainsert, if_neg hk] at hp
      rcases List.mem_cons.1 hp with h | h
      · left; rw [h]; exact List.mem_cons_self _ _
      · rcases ih p h with h1 | h1
        · left; exact List.mem_cons_of_mem _ h1
        · right; exact h1

theorem questionsFold_spec :
    ∀ (docs : List (String × QMap)) (acc qs : List (Date × QMap)),
      questionsFold docs acc = Except.ok qs →
      (∀ d, alookup qs d =
        match lastSeenFor docs d with
        | some v => some v
        | none => alookup acc d) ∧
      ((acc.map Prod.fst).Nodup → (qs.map Prod.fst).Nodup) ∧
      ((∀ p ∈ acc, dateValid p.1) → ∀ p ∈ qs, dateValid p.1) := by
  intro docs
  induction docs with
  | nil =>
    intro acc qs h
    simp only [questionsFold] at h
    cases h
    exact ⟨fun d => rfl, id, id⟩
  | cons doc rest ih =>
    intro acc qs h
    obtain ⟨ds, qm⟩ := doc
    simp only [questionsFold] at h
    rcases hp : parseDate ds with _ | pd
    · rw [hp] at h; cases h
    · rw [hp] at h
      obtain ⟨ha, hb, hc⟩ := ih (ainsert acc pd qm) qs h
      refine ⟨fun d => ?_, fun hnd => hb (keys_nodup_ainsert _ _ _ hnd), fun hv => hc ?_⟩
      · rw [ha d]
        show _ = (match lastSeenFor ((ds, qm) :: rest) d with
          | some v => some v
          | none => alookup acc d)
        rw [show lastSeenFor ((ds, qm) :: rest) d =
          (match lastSeenFor rest d with
           | some v => some v
           | none => if parseDate ds = some d then some qm else none) from rfl]
        rcases hl : lastSeenFor rest d with _ | v
        · rw [alookup_ainsert]
          by_cases hd : d = pd
          · subst hd
            rw [if_pos rfl, hp, if_pos rfl]
          · rw [if_neg hd, if_neg (fun e : parseDate ds = some d => hd (by
              rw [hp] at e; cases e; rfl))]
        · rfl
      · intro p hp2
        rcases mem_ainsert acc pd qm p hp2 with h1 | h1
        · exact hv p h1
        · rw [h1]
          exact parseDate_valid hp

theorem questionsFold_isSome :
    ∀ (docs : List (String × QMap)) (acc : List (Date × QMap)),
      (∀ p ∈ docs, (parseDate p.1).isSome) →
      ∃ qs, questionsFold docs acc = Except.ok qs := by
  intro docs
  induction docs with
  | nil => exact fun acc _ => ⟨acc, rfl⟩
  | cons doc rest ih =>
    intro acc hall
    obtain ⟨ds, qm⟩ := doc
    rcases hp : parseDate ds with _ | pd
    · have := hall (ds, qm) (List.mem_cons_self _ _)
      rw [hp] at this
      cases this
    · rcases ih (ainsert acc pd qm) (fun p hp2 => hall p (List.mem_cons_of_mem _ hp2)) with
        ⟨qs, hqs⟩
      exact ⟨qs, by simp only [questionsFold, hp]; exact hqs⟩

theorem get_all_questions_spec (c : PatientCollection) (qs : List (Date × QMap))
    (h : get_all_questions c = Except.ok qs) :
    List.Sorted descRel qs ∧ (qs.map Prod.fst).Nodup ∧
    (∀ p ∈ qs, dateValid p.1) ∧
    (∀ d v, ((d, v) ∈ qs ↔ lastSeenFor c.question_docs d = some v)) := by
  unfold get_all_questions at h
  rcases hf : questionsFold c.question_docs [] with e | qs0
  · rw [hf] at h; cases h
  · rw [hf] at h
    simp only [Bind.bind, Except.bind, pure, Except.pure, Except.ok.injEq] at h
    subst h
    obtain ⟨ha, hb, hc⟩ := questionsFold_spec c.question_docs [] qs0 hf
    have hperm : List.Perm (List.insertionSort descRel qs0) qs0 :=
      List.perm_insertionSort descRel qs0
    have hnd0 : (qs0.map Prod.fst).Nodup := hb (by simp)
    have hlook : ∀ d, alookup qs0 d = lastSeenFor c.question_docs d := by
      intro d
      rw [ha d]
      rcases lastSeenFor c.question_docs d with _ | v
      · rfl
      · rfl
    refine ⟨List.sorted_insertionSort descRel qs0, ?_, ?_, ?_⟩
    · exact ((hperm.map Prod.fst).nodup_iff).2 hnd0
    · intro p hp2
      exact hc (by simp) p (hperm.mem_iff.1 hp2)
    · intro d v
      constructor
      · intro hmem
        rw [← hlook d]
        exact alookup_eq_some_of_mem qs0 d v hnd0 (hperm.mem_iff.1 hmem)
      · intro hlast
        have : alookup qs0 d = some v := by rw [hlook d]; exact hlast
        exact hperm.mem_iff.2 (mem_of_alookup_eq_some qs0 d v this)

theorem get_all_questions_ok (c : PatientCollection)
    (h : ∀ p ∈ c.question_docs, (parseDate p.1).isSome) :
    ∃ qs, get_all_questions c = Except.ok qs := by
  rcases questionsFold_isSome c.question_docs [] h with ⟨qs0, hqs⟩
  exact ⟨List.insertionSort descRel qs0, by
    unfold get_all_questions
    rw [hqs]
    rfl⟩

/-! ### Provider-side helper lemmas -/

theorem except_bind_ok {α β : Type} (a : α) (f : α → Except PyErr β) :
    (Except.ok a >>= f) = f a := rfl

theorem find_pl_replace (coll : ProvColl) (nd : PLDoc)
    (h : (find_pl coll).isSome) (hnd : nd.document_type = "patient_list") :
    find_pl (replace_pl coll nd) = some nd := by
  induction coll with
  | nil => simp [find_pl] at h
  | cons d ds ih =>
    by_cases hd : d.document_type = "patient_list"
    · simp only [replace_pl, if_pos hd]
      unfold find_pl
      rw [List.find?_cons_of_pos _ (by simp [hnd])]
    · simp only [replace_pl, if_neg hd]
      unfold find_pl at h ⊢
      rw [List.find?_cons_of_neg _ (by simp [hd])] at h
      rw [List.find?_cons_of_neg _ (by simp [hd])]
      exact ih h

theorem get_patient_list_isSome (coll : ProvColl) (pl : List (String × String))
    (h : get_patient_list coll = Except.ok pl) : (find_pl coll).isSome := by
  unfold get_patient_list at h
  rcases hf : find_pl coll with _ | d
  · rw [hf] at h; cases h
  · simp

theorem get_patient_list_replace (coll : ProvColl) (pl m : List (String × String))
    (h : get_patient_list coll = Except.ok pl) :
    get_patient_list (replace_pl coll (PLDoc.mk "patient_list" m)) = Except.ok m := by
  unfold get_patient_list
  rw [find_pl_replace coll _ (get_patient_list_isSome coll pl h) rfl]
  rfl

/-! ### Per-row lemmas for overviews and survey records -/

theorem overview_mapM (pats : PatientsNS) :
    ∀ (pl : List (String × String)),
      (∀ pk ∈ pl, ∃ fn ln, get_first_name (patientColl pats pk.1) = Except.ok fn ∧
        get_last_name (patientColl pats pk.1) = Except.ok ln) →
      ∃ recs, pl.mapM (overview_row pats) = Except.ok recs ∧
        List.Forall₂ (fun (pk : String × String) (r : OverviewRec) =>
          r.patient_id = pk.1 ∧
          get_first_name (patientColl pats pk.1) = Except.ok r.first_name ∧
          get_last_name (patientColl pats pk.1) = Except.ok r.last_name) pl recs := by
  intro pl
  induction pl with
  | nil => exact fun _ => ⟨[], rfl, List.Forall₂.nil⟩
  | cons pk rest ih =>
    intro hall
    rcases hall pk (List.mem_cons_self _ _) with ⟨fn, ln, hfn, hln⟩
    rcases ih (fun q hq => hall q (List.mem_cons_of_mem _ hq)) with ⟨recs, hrecs, hf2⟩
    refine ⟨OverviewRec.mk pk.1 fn ln :: recs, ?_,
      List.Forall₂.cons ⟨rfl, hfn, hln⟩ hf2⟩
    rw [List.mapM_cons]
    have hrow : overview_row pats pk = Except.ok (OverviewRec.mk pk.1 fn ln) := by
      show (get_first_name (patientColl pats pk.1) >>= fun fn =>
        get_last_name (patientColl pats pk.1) >>= fun ln =>
        pure (OverviewRec.mk pk.1 fn ln)) = _
      rw [hfn]
      simp only [except_bind_ok]
      rw [hln]
      simp only [except_bind_ok]
      rfl
    rw [hrow, hrecs]
    simp only [except_bind_ok]
    rfl

theorem forall₂_map_eq {α β γ : Type} {R : α → β → Prop} (f : α → γ) (g : β → γ)
    (h : ∀ a b, R a b → g b = f a) :
    ∀ {l : List α} {out : List β}, List.Forall₂ R l out → out.map g = l.map f := by
  intro l out hf
  induction hf with
  | nil => rfl
  | cons hr _ ih => simp [ih, h _ _ hr]

theorem mkSurveyRecord_ok {d : Date} {qs : QMap} {r : SurveyRecord}
    (h : mkSurveyRecord d qs = Except.ok r) :
    r.date = formatDate d ∧ (r.period ≠ "Yes" → r.flow_rate = "n/a") := by
  unfold mkSurveyRecord at h
  rcases h1 : dgetitem qs "On period?" "On period?" with e | period
  · rw [h1] at h; cases h
  · rw [h1] at h
    simp only [except_bind_ok] at h
    by_cases hp : period = "Yes"
    · rw [if_pos hp] at h
      rcases h2 : dgetitem qs "Flow rate?" "Flow rate?" with e | flow
      · rw [h2] at h; cases h
      · rw [h2] at h
        simp only [except_bind_ok] at h
        rcases h3 : dgetitem qs "Changes in hair?" "Changes in hair?" with e | hair
        · rw [h3] at h; cases h
        · rw [h3] at h
          simp only [except_bind_ok] at h
          rcases h4 : dgetitem qs "Pain level?" "Pain level?" with e | pain
          · rw [h4] at h; cases h
          · rw [h4] at h
            simp only [except_bind_ok, pure, Except.pure, Except.ok.injEq] at h
            subst h
            exact ⟨rfl, fun hne => absurd hp hne⟩
    · rw [if_neg hp] at h
      rw [show (pure "n/a" : Except PyErr String) = Except.ok "n/a" from rfl] at h
      simp only [except_bind_ok] at h
      rcases h3 : dgetitem qs "Changes in hair?" "Changes in hair?" with e | hair
      · rw [h3] at h; cases h
      · rw [h3] at h
        simp only [except_bind_ok] at h
        rcases h4 : dgetitem qs "Pain level?" "Pain level?" with e | pain
        · rw [h4] at h; cases h
        · rw [h4] at h
          simp only [except_bind_ok, pure, Except.pure, Except.ok.injEq] at h
          subst h
          exact ⟨rfl, fun _ => rfl⟩

/-! ### The claims -/

/-- C1: with encryption disabled, `verify_patient_credentials(patient_id,
key)` does not depend on the key — any two keys give identical results —
and it returns `True` exactly when a collection named `patient_id`
exists in the `Patients` namespace. -/
theorem claim_C1 (ns : PatientsNS) (patient_id k1 k2 : String) :
    verify_patient_credentials ns patient_id k1 false =
      verify_patient_credentials ns patient_id k2 false ∧
    (verify_patient_credentials ns patient_id k1 false = some true ↔
      patient_id ∈ list_collection_names ns) := by
  refine ⟨rfl, ?_⟩
  unfold verify_patient_credentials
  by_cases hmem : patient_id ∈ list_collection_names ns
  · have hc : (list_collection_names ns).contains patient_id = true :=
      List.elem_eq_true_of_mem hmem
    simp [hc, hmem]
  · have hc : ¬ (list_collection_names ns).contains patient_id = true :=
      fun e => hmem (List.mem_of_elem_eq_true e)
    simp only [Bool.not_eq_true] at hc
    simp [hc, hmem]

/-- C2: the claim says first-time `Provider.__init__` leaves exactly one
`patient_list` document. In the code the roster-document probe is taken
before the new-collection branch inserts its seed document, so on a
fresh store both branches insert: the collection ends with two
identical roster documents, and a second construction leaves both in
place. -/
theorem claim_C2_bug :
    countPL (provColl (provider_init (ProvidersNS.mk []) "prov1") "prov1") = 2 ∧
    countPL (provColl (provider_init
      (provider_init (ProvidersNS.mk []) "prov1") "prov1") "prov1") = 2 := by
  constructor <;> rfl

/-- C3 counterexample: `drop_patient` on an absent patient identifier
raises the bare Python `KeyError`, not the specification's
`NotFoundError`. -/
theorem claim_C3_counterexample :
    drop_patient [PLDoc.mk "patient_list" []] "p1" =
      Except.error (PyErr.keyError "p1") ∧
    drop_patient [PLDoc.mk "patient_list" []] "p1" ≠
      Except.error PyErr.notFoundError := by
  refine ⟨rfl, fun h => ?_⟩
  rw [show drop_patient [PLDoc.mk "patient_list" []] "p1" =
    Except.error (PyErr.keyError "p1") from rfl] at h
  simp at h

/-- C3 amended: for every provider roster and patient identifier `p` not
present in the roster mapping, `drop_patient(p)` fails with the
unconverted `KeyError` (not `NotFoundError`); in particular, on a
duplicate-free roster, after `drop_patient(p)` succeeds once, calling
it again fails with `KeyError`. -/
theorem claim_C3 (coll : ProvColl) (pl : List (String × String)) (p : String)
    (h : get_patient_list coll = Except.ok pl) :
    (alookup pl p = none → drop_patient coll p = Except.error (PyErr.keyError p)) ∧
    ((pl.map Prod.fst).Nodup → ∀ coll', drop_patient coll p = Except.ok coll' →
      drop_patient coll' p = Except.error (PyErr.keyError p)) := by
  constructor
  · intro hnone
    unfold drop_patient
    rw [h]
    simp only [except_bind_ok]
    rw [(apop_eq_none_iff pl p).2 hnone]
  · intro hnd coll' hdrop
    unfold drop_patient at hdrop
    rw [h] at hdrop
    simp only [except_bind_ok] at hdrop
    rcases hpop : apop pl p with _ | pl'
    · rw [hpop] at hdrop; cases hdrop
    · rw [hpop] at hdrop
      simp only [pure, Except.pure, Except.ok.injEq] at hdrop
      subst hdrop
      have h2 : get_patient_list (replace_pl coll (PLDoc.mk "patient_list" pl')) =
          Except.ok pl' := get_patient_list_replace coll pl pl' h
      unfold drop_patient
      rw [h2]
      simp only [except_bind_ok]
      rw [(apop_eq_none_iff pl' p).2 (alookup_apop_self pl pl' p hnd hpop)]

theorem claim_C3_witness :
    drop_patient [PLDoc.mk "patient_list" [("p1", "k1")]] "p2" =
      Except.error (PyErr.keyError "p2") :=
  (claim_C3 [PLDoc.mk "patient_list" [("p1", "k1")]] [("p1", "k1")] "p2" rfl).1 rfl

/-- C4 counterexample: for a patient with no `fsh_values` document at
all, `get_range('fsh')` does not return the sentinel — `find_one`
returns `None` and the subscript raises `TypeError`. -/
theorem claim_C4_counterexample :
    get_range emptyPatientCollection "fsh" = Except.error PyErr.noneSubscript ∧
    get_range emptyPatientCollection "fsh" ≠
      Except.ok [RangeVal.na, RangeVal.na] := by
  refine ⟨rfl, fun h => ?_⟩
  rw [show get_range emptyPatientCollection "fsh" =
    Except.error PyErr.noneSubscript from rfl] at h
  simp at h

/-- C4 amended: `get_range('fsh')` returns the sentinel pair
`['n/a', 'n/a']` when the `fsh_values` document exists with an empty
value mapping; when the document is absent it raises `TypeError`
(subscripting `None`) instead of returning the sentinel. -/
theorem claim_C4 (c : PatientCollection) :
    (c.fsh_doc = some [] → get_range c "fsh" = Except.ok [RangeVal.na, RangeVal.na]) ∧
    (c.fsh_doc = none → get_range c "fsh" = Except.error PyErr.noneSubscript) := by
  constructor
  · intro h
    unfold get_range
    rw [if_neg (by decide : ¬ ("fsh" = "lh"))]
    unfold get_fsh_data
    rw [h]
    rfl
  · intro h
    unfold get_range
    rw [if_neg (by decide : ¬ ("fsh" = "lh"))]
    unfold get_fsh_data
    rw [h]
    rfl

theorem claim_C4_witness :
    get_range (PatientCollection.mk none none (some []) []) "fsh" =
      Except.ok [RangeVal.na, RangeVal.na] ∧
    get_range (PatientCollection.mk none none none []) "fsh" =
      Except.error PyErr.noneSubscript :=
  ⟨(claim_C4 (PatientCollection.mk none none (some []) [])).1 rfl,
   (claim_C4 (PatientCollection.mk none none none [])).2 rfl⟩

/-- C5 counterexample: a patient whose `lh_values` document stores its
two dates out of order — the chart series keeps the document's key
order, so the claim's "sorted ascending by calendar date" fails while
the pair count is still N. -/
theorem claim_C5_counterexample :
    get_chart_points (PatientCollection.mk none
        (some [("02-01-2024", "1"), ("01-01-2024", "2")]) none []) "lh" =
      Except.ok [(Date.mk 2 1 2024, (1 : ℚ)), (Date.mk 1 1 2024, (2 : ℚ))] ∧
    ¬ List.Sorted (fun a b : Date × ℚ => dateNum a.1 ≤ dateNum b.1)
      [(Date.mk 2 1 2024, (1 : ℚ)), (Date.mk 1 1 2024, (2 : ℚ))] := by
  constructor
  · rfl
  · intro h
    have := (List.sorted_cons.1 h).1 _ (List.mem_cons_self _ _)
    simp [dateNum] at this

/-- C5 amended: for a patient whose `lh_values` document holds N
well-formed date→value pairs, `get_chart` produces exactly N
`(date, value)` pairs — in the document's key order, not sorted; they
are sorted ascending only when the stored keys already are. -/
theorem claim_C5 (c : PatientCollection) (m : List (String × String))
    (ds : List Date) (vs : List ℚ)
    (hm : c.lh_doc = some m)
    (hd : (m.map Prod.fst).mapM parseDate = some ds)
    (hv : (m.map Prod.snd).mapM parseFloat = some vs) :
    get_chart_points c "lh" = Except.ok (ds.zip vs) ∧
    (ds.zip vs).length = m.length := by
  have hlen1 : ds.length = (m.map Prod.fst).length := mapM_some_length _ _ _ hd
  have hlen2 : vs.length = (m.map Prod.snd).length := mapM_some_length _ _ _ hv
  rw [List.length_map] at hlen1 hlen2
  constructor
  · unfold get_chart_points
    rw [if_pos rfl]
    unfold get_lh_data
    rw [hm]
    rw [show pyOpt (some m) PyErr.noneSubscript = Except.ok m from rfl]
    simp only [except_bind_ok]
    rw [mapM_pyOpt_ok parseDate PyErr.valueError _ _ hd]
    simp only [except_bind_ok]
    rw [mapM_pyOpt_ok parseFloat PyErr.valueError _ _ hv]
    simp only [except_bind_ok]
    rfl
  · rw [List.length_zip, hlen1, hlen2, Nat.min_self]

theorem claim_C5_witness :
    get_chart_points (PatientCollection.mk none
        (some [("01-01-2024", "1"), ("02-01-2024", "2")]) none []) "lh" =
      Except.ok ([Date.mk 1 1 2024, Date.mk 2 1 2024].zip [(1 : ℚ), (2 : ℚ)]) ∧
    ([Date.mk 1 1 2024, Date.mk 2 1 2024].zip [(1 : ℚ), (2 : ℚ)]).length =
      [("01-01-2024", "1"), ("02-01-2024", "2")].length :=
  claim_C5 (PatientCollection.mk none
      (some [("01-01-2024", "1"), ("02-01-2024", "2")]) none [])
    [("01-01-2024", "1"), ("02-01-2024", "2")]
    [Date.mk 1 1 2024, Date.mk 2 1 2024] [(1 : ℚ), (2 : ℚ)] rfl rfl rfl

/-- C7: for every patient whose metric series document (`lh`, or any
other metric read through the `fsh` branch) exists with a non-empty
mapping whose values all parse as floats, `get_range(metric)` returns
exactly the two-element list `[min, max]` of the parsed values. -/
theorem claim_C7 (c : PatientCollection) (metric : String)
    (m : List (String × String)) (v : ℚ) (vs : List ℚ)
    (hm : (if metric = "lh" then c.lh_doc else c.fsh_doc) = some m)
    (hv : (m.map Prod.snd).mapM parseFloat = some (v :: vs)) :
    get_range c metric =
      Except.ok [RangeVal.num (vs.foldl min v), RangeVal.num (vs.foldl max v)] ∧
    vs.foldl min v ∈ v :: vs ∧ (∀ x ∈ v :: vs, vs.foldl min v ≤ x) ∧
    vs.foldl max v ∈ v :: vs ∧ (∀ x ∈ v :: vs, x ≤ vs.foldl max v) := by
  have hne : m.isEmpty = false := by
    rcases m with _ | ⟨p, rest⟩
    · rw [show (([] : List (String × String)).map Prod.snd) = [] from rfl,
        List.mapM_nil] at hv
      cases hv
    · rfl
  refine ⟨?_, foldl_min_mem vs v, foldl_min_le vs v,
    foldl_max_mem vs v, foldl_le_max vs v⟩
  unfold get_range
  by_cases hmet : metric = "lh"
  · rw [if_pos hmet] at hm
    rw [if_pos hmet]
    unfold get_lh_data
    rw [hm]
    rw [show pyOpt (some m) PyErr.noneSubscript = Except.ok m from rfl]
    simp only [except_bind_ok]
    rw [hne]
    rw [if_neg (by decide : ¬ (false = true))]
    rw [mapM_pyOpt_ok parseFloat PyErr.valueError _ _ hv]
    simp only [except_bind_ok]
    rfl
  · rw [if_neg hmet] at hm
    rw [if_neg hmet]
    unfold get_fsh_data
    rw [hm]
    rw [show pyOpt (some m) PyErr.noneSubscript = Except.ok m from rfl]
    simp only [except_bind_ok]
    rw [hne]
    rw [if_neg (by decide : ¬ (false = true))]
    rw [mapM_pyOpt_ok parseFloat PyErr.valueError _ _ hv]
    simp only [except_bind_ok]
    rfl

theorem claim_C7_witness :
    get_range (PatientCollection.mk none
        (some [("01-01-2024", "2"), ("01-02-2024", "1")]) none []) "lh" =
      Except.ok [RangeVal.num ([(1 : ℚ)].foldl min 2),
        RangeVal.num ([(1 : ℚ)].foldl max 2)] ∧
    [(1 : ℚ)].foldl min 2 ∈ (2 : ℚ) :: [(1 : ℚ)] ∧
    (∀ x ∈ (2 : ℚ) :: [(1 : ℚ)], [(1 : ℚ)].foldl min 2 ≤ x) ∧
    [(1 : ℚ)].foldl max 2 ∈ (2 : ℚ) :: [(1 : ℚ)] ∧
    (∀ x ∈ (2 : ℚ) :: [(1 : ℚ)], x ≤ [(1 : ℚ)].foldl max 2) :=
  claim_C7 (PatientCollection.mk none
      (some [("01-01-2024", "2"), ("01-02-2024", "1")]) none [])
    "lh" [("01-01-2024", "2"), ("01-02-2024", "1")] 2 [(1 : ℚ)] rfl rfl

/-- C6 counterexample: a roster holding patient `p1` whose record is
absent from the `Patients` namespace — the whole listing fails with the
`TypeError` from subscripting `None`, instead of omitting the entry
(which would have produced `Except.ok []`). -/
theorem claim_C6_counterexample :
    patients_overview (PatientsNS.mk []) [PLDoc.mk "patient_list" [("p1", "k1")]] =
      Except.error PyErr.noneSubscript ∧
    patients_overview (PatientsNS.mk []) [PLDoc.mk "patient_list" [("p1", "k1")]] ≠
      Except.ok [] := by
  refine ⟨rfl, fun h => ?_⟩
  rw [show patients_overview (PatientsNS.mk [])
      [PLDoc.mk "patient_list" [("p1", "k1")]] =
    Except.error PyErr.noneSubscript from rfl] at h
  simp at h

/-- C6 amended: `patients_overview()` returns one record
`{patient_id, first_name, last_name}` per roster patient when every
roster patient's details document exists with both name fields; a
roster patient whose record cannot be found makes the whole listing
fail with `TypeError` — the entry is not omitted. -/
theorem claim_C6 (pats : PatientsNS) (coll : ProvColl)
    (pl : List (String × String))
    (h : get_patient_list coll = Except.ok pl)
    (hall : ∀ pk ∈ pl, ∃ fn ln,
      get_first_name (patientColl pats pk.1) = Except.ok fn ∧
      get_last_name (patientColl pats pk.1) = Except.ok ln) :
    ∃ recs, patients_overview pats coll = Except.ok recs ∧
      List.Forall₂ (fun (pk : String × String) (r : OverviewRec) =>
        r.patient_id = pk.1 ∧
        get_first_name (patientColl pats pk.1) = Except.ok r.first_name ∧
        get_last_name (patientColl pats pk.1) = Except.ok r.last_name) pl recs ∧
      recs.map OverviewRec.patient_id = pl.map Prod.fst := by
  rcases overview_mapM pats pl hall with ⟨recs, hrecs, hf2⟩
  refine ⟨recs, ?_, hf2,
    forall₂_map_eq Prod.fst OverviewRec.patient_id (fun a b hab => hab.1) hf2⟩
  unfold patients_overview
  rw [h]
  simp only [except_bind_ok]
  exact hrecs

theorem claim_C6_witness :
    ∃ recs, patients_overview
        (PatientsNS.mk [("p1", PatientCollection.mk
          (some [("first_name", "A"), ("last_name", "B")]) none none [])])
        [PLDoc.mk "patient_list" [("p1", "k1")]] = Except.ok recs ∧
      List.Forall₂ (fun (pk : String × String) (r : OverviewRec) =>
        r.patient_id = pk.1 ∧
        get_first_name (patientColl (PatientsNS.mk [("p1", PatientCollection.mk
          (some [("first_name", "A"), ("last_name", "B")]) none none [])]) pk.1) =
          Except.ok r.first_name ∧
        get_last_name (patientColl (PatientsNS.mk [("p1", PatientCollection.mk
          (some [("first_name", "A"), ("last_name", "B")]) none none [])]) pk.1) =
          Except.ok r.last_name) [("p1", "k1")] recs ∧
      recs.map OverviewRec.patient_id = [("p1", "k1")].map Prod.fst :=
  claim_C6 (PatientsNS.mk [("p1", PatientCollection.mk
      (some [("first_name", "A"), ("last_name", "B")]) none none [])])
    [PLDoc.mk "patient_list" [("p1", "k1")]] [("p1", "k1")] rfl
    (fun pk hpk => by
      simp only [List.mem_singleton] at hpk
      subst hpk
      exact ⟨"A", "B", rfl, rfl⟩)

/-- C8: whenever `get_surveys_overview()` succeeds, it yields one
normalized record per retained survey date, sorted by calendar date
descending (most recent first), the record dates are the formatted
dates of the sorted, duplicate-free survey-date keys, and `flow_rate`
is `"n/a"` in every record whose `period` field is not `'Yes'`. -/
theorem claim_C8 (c : PatientCollection) (recs : List SurveyRecord)
    (h : get_surveys_overview c = Except.ok recs) :
    List.Sorted recDateDesc recs ∧
    (∀ r ∈ recs, r.period ≠ "Yes" → r.flow_rate = "n/a") ∧
    ∃ qs, get_all_questions c = Except.ok qs ∧
      recs.map SurveyRecord.date = qs.map (fun p => formatDate p.1) ∧
      (qs.map Prod.fst).Nodup ∧ recs.length = qs.length := by
  unfold get_surveys_overview at h
  rcases hq : get_all_questions c with e | qs
  · rw [hq] at h; cases h
  · rw [hq] at h
    simp only [except_bind_ok] at h
    obtain ⟨hsort, hnd, hvalid, -⟩ := get_all_questions_spec c qs hq
    have hf2 : List.Forall₂ (fun (p : Date × QMap) (r : SurveyRecord) =>
        mkSurveyRecord p.1 p.2 = Except.ok r) qs recs :=
      mapM_ok_forall₂ _ qs recs h
    refine ⟨?_, ?_, qs, rfl, ?_, hnd, hf2.length_eq.symm⟩
    · have hsort' : List.Pairwise
          (fun p p' : Date × QMap => p ∈ qs ∧ p' ∈ qs ∧ descRel p p') qs :=
        List.Pairwise.and_mem.1 hsort
      refine pairwise_of_forall₂ ?_ hf2 hsort'
      intro p p' r r' hpr hpr' hP
      obtain ⟨hp_mem, hp'_mem, hle⟩ := hP
      obtain ⟨hdate, -⟩ := mkSurveyRecord_ok hpr
      obtain ⟨hdate', -⟩ := mkSurveyRecord_ok hpr'
      refine ⟨p.1, p'.1, ?_, ?_, hle⟩
      · rw [hdate]; exact parseDate_formatDate _ (hvalid p hp_mem)
      · rw [hdate']; exact parseDate_formatDate _ (hvalid p' hp'_mem)
    · intro r hr hper
      rcases forall₂_mem_right hf2 r hr with ⟨p, -, hpr⟩
      exact (mkSurveyRecord_ok hpr).2 hper
    · have hmap : ∀ (p : Date × QMap) (r : SurveyRecord),
          mkSurveyRecord p.1 p.2 = Except.ok r → r.date = formatDate p.1 :=
        fun p r hpr => (mkSurveyRecord_ok hpr).1
      exact forall₂_map_eq (fun p => formatDate p.1) SurveyRecord.date hmap hf2

set_option maxHeartbeats 1600000 in
theorem claim_C8_witness :
    List.Sorted recDateDesc
      [SurveyRecord.mk "03-01-2024" "Yes" "heavy" "yes" "5",
       SurveyRecord.mk "01-15-2024" "No" "n/a" "no" "3"] ∧
    (∀ r ∈ [SurveyRecord.mk "03-01-2024" "Yes" "heavy" "yes" "5",
       SurveyRecord.mk "01-15-2024" "No" "n/a" "no" "3"],
      r.period ≠ "Yes" → r.flow_rate = "n/a") ∧
    ∃ qs, get_all_questions (PatientCollection.mk none none none
        [("01-15-2024", [("On period?", "No"), ("Changes in hair?", "no"),
          ("Pain level?", "3")]),
         ("03-01-2024", [("On period?", "Yes"), ("Flow rate?", "heavy"),
          ("Changes in hair?", "yes"), ("Pain level?", "5")])]) = Except.ok qs ∧
      [SurveyRecord.mk "03-01-2024" "Yes" "heavy" "yes" "5",
       SurveyRecord.mk "01-15-2024" "No" "n/a" "no" "3"].map SurveyRecord.date =
        qs.map (fun p => formatDate p.1) ∧
      (qs.map Prod.fst).Nodup ∧
      [SurveyRecord.mk "03-01-2024" "Yes" "heavy" "yes" "5",
       SurveyRecord.mk "01-15-2024" "No" "n/a" "no" "3"].length = qs.length :=
  claim_C8 (PatientCollection.mk none none none
      [("01-15-2024", [("On period?", "No"), ("Changes in hair?", "no"),
        ("Pain level?", "3")]),
       ("03-01-2024", [("On period?", "Yes"), ("Flow rate?", "heavy"),
        ("Changes in hair?", "yes"), ("Pain level?", "5")])])
    [SurveyRecord.mk "03-01-2024" "Yes" "heavy" "yes" "5",
     SurveyRecord.mk "01-15-2024" "No" "n/a" "no" "3"] rfl

/-- C9: when every `questions` document's date parses, the aggregation
`_get_all_questions` succeeds even in the presence of duplicate dates,
its keys are duplicate-free, and each retained entry is exactly the
last-seen document (in iteration order) for its date. -/
theorem claim_C9 (c : PatientCollection)
    (h : ∀ p ∈ c.question_docs, (parseDate p.1).isSome) :
    ∃ qs, get_all_questions c = Except.ok qs ∧
      (qs.map Prod.fst).Nodup ∧
      ∀ d v, ((d, v) ∈ qs ↔ lastSeenFor c.question_docs d = some v) := by
  rcases get_all_questions_ok c h with ⟨qs, hqs⟩
  obtain ⟨-, hnd, -, hmem⟩ := get_all_questions_spec c qs hqs
  exact ⟨qs, hqs, hnd, hmem⟩

theorem claim_C9_witness :
    ∃ qs, get_all_questions (PatientCollection.mk none none none
        [("01-15-2024", [("q", "a1")]), ("03-01-2024", [("q", "b")]),
         ("01-15-2024", [("q", "a2")])]) = Except.ok qs ∧
      (qs.map Prod.fst).Nodup ∧
      ∀ d v, ((d, v) ∈ qs ↔
        lastSeenFor [("01-15-2024", [("q", "a1")]), ("03-01-2024", [("q", "b")]),
          ("01-15-2024", [("q", "a2")])] d = some v) :=
  claim_C9 (PatientCollection.mk none none none
      [("01-15-2024", [("q", "a1")]), ("03-01-2024", [("q", "b")]),
       ("01-15-2024", [("q", "a2")])]) (by decide)

/-- C10: frame property of the roster mutations. `add_patient(p, k)`
rewrites the roster document so that the mapping is exactly the old one
with the entry for `p` set to `k` — every other entry reads unchanged —
and `drop_patient(p)` on a present `p` removes exactly the entry for
`p`; in both cases the written document still carries `document_type`
`'patient_list'`. -/
theorem claim_C10 (coll : ProvColl) (pl : List (String × String)) (p k : String)
    (h : get_patient_list coll = Except.ok pl)
    (hnd : (pl.map Prod.fst).Nodup) :
    (∃ coll', add_patient coll p k = Except.ok coll' ∧
      (∃ d0, find_pl coll' = some d0 ∧ d0.document_type = "patient_list") ∧
      get_patient_list coll' = Except.ok (ainsert pl p k) ∧
      alookup (ainsert pl p k) p = some k ∧
      (∀ q, q ≠ p → alookup (ainsert pl p k) q = alookup pl q)) ∧
    (∀ pl', apop pl p = some pl' →
      ∃ coll', drop_patient coll p = Except.ok coll' ∧
        (∃ d0, find_pl coll' = some d0 ∧ d0.document_type = "patient_list") ∧
        get_patient_list coll' = Except.ok pl' ∧
        alookup pl' p = none ∧
        (∀ q, q ≠ p → alookup pl' q = alookup pl q)) := by
  constructor
  · refine ⟨replace_pl coll (PLDoc.mk "patient_list" (ainsert pl p k)),
      ?_, ?_, ?_, ?_, ?_⟩
    · unfold add_patient
      rw [h]
      simp only [except_bind_ok]
      rfl
    · exact ⟨PLDoc.mk "patient_list" (ainsert pl p k),
        find_pl_replace coll _ (get_patient_list_isSome coll pl h) rfl, rfl⟩
    · exact get_patient_list_replace coll pl _ h
    · rw [alookup_ainsert, if_pos rfl]
    · intro q hq
      rw [alookup_ainsert, if_neg hq]
  · intro pl' hpop
    refine ⟨replace_pl coll (PLDoc.mk "patient_list" pl'), ?_, ?_, ?_, ?_, ?_⟩
    · unfold drop_patient
      rw [h]
      simp only [except_bind_ok]
      rw [hpop]
      rfl
    · exact ⟨PLDoc.mk "patient_list" pl',
        find_pl_replace coll _ (get_patient_list_isSome coll pl h) rfl, rfl⟩
    · exact get_patient_list_replace coll pl _ h
    · exact alookup_apop_self pl pl' p hnd hpop
    · exact fun q hq => alookup_apop_ne pl pl' p q hpop hq

theorem claim_C10_witness :
    (∃ coll', add_patient [PLDoc.mk "patient_list" [("p1", "k1")]] "p2" "k2" =
        Except.ok coll' ∧
      (∃ d0, find_pl coll' = some d0 ∧ d0.document_type = "patient_list") ∧
      get_patient_list coll' = Except.ok (ainsert [("p1", "k1")] "p2" "k2") ∧
      alookup (ainsert [("p1", "k1")] "p2" "k2") "p2" = some "k2" ∧
      (∀ q, q ≠ "p2" → alookup (ainsert [("p1", "k1")] "p2" "k2") q =
        alookup [("p1", "k1")] q)) ∧
    (∀ pl', apop [("p1", "k1")] "p2" = some pl' →
      ∃ coll', drop_patient [PLDoc.mk "patient_list" [("p1", "k1")]] "p2" =
          Except.ok coll' ∧
        (∃ d0, find_pl coll' = some d0 ∧ d0.document_type = "patient_list") ∧
        get_patient_list coll' = Except.ok pl' ∧
        alookup pl' "p2" = none ∧
        (∀ q, q ≠ "p2" → alookup pl' q = alookup [("p1", "k1")] q)) :=
  claim_C10 [PLDoc.mk "patient_list" [("p1", "k1")]] [("p1", "k1")] "p2" "k2"
    rfl (by decide)

end EndOfPcos
